import Mathlib

/-
Verification of the encrypted-object framing and key-rotation protocol of
secure-s3-store (src/SecureS3Store.ts), as a shallow embedding.

Modelling conventions:
* A Node `Buffer` is a `List Nat` of byte values (`Bytes`); `Buffer.slice`
  becomes `List.drop`/`List.take`, which, like the JS original, never fault
  out of bounds.
* A JS string is a `List Char` (`JStr`).  `Buffer.from(s, 'utf8')` is the
  standard UTF-8 encoder `utf8Encode`; JS strings reaching this library are
  well-formed (no lone surrogates), which `Char`'s validity invariant models.
* The decode side does `buf.toString('utf8')` followed by a `Map.get` keyed
  by strings.  We model that composite as a byte-level lookup
  (`lookupByBytes`): for every well-formed configured identifier the two
  agree, since UTF-8 encoding of well-formed strings is injective (proved
  below as `utf8Encode_inj`).
* Node's `createCipheriv('aes-256-gcm', ...)` is an external primitive; it is
  modelled as an ideal AEAD with the same observable shape: a
  length-preserving keystream XOR for the payload and a 16-byte tag that is a
  deterministic function of key, IV and ciphertext.  `decipher.setAuthTag` /
  `decipher.final` become `decryptGCM`, which yields the plaintext exactly
  when the supplied tag has one of the lengths Node accepts without an
  `authTagLength` option (16, 15, 14, 13, 12, 8 or 4 bytes) and equals the
  corresponding truncation of the computed tag, and otherwise fails.  When
  that failure (or a malformed IV/tag reaching the cipher) happens inside
  `get`, Node throws a plain `Error`; the `catch` block of `get` rethrows
  only `DecryptionError` instances and wraps everything else as `S3Error`,
  which the model reproduces (`cryptoFailMsg`; the literal Node message
  varies with the sub-case, the wrapped error class does not).
* `randomBytes(16)` makes `put` nondeterministic; the IV is therefore an
  explicit argument of the modelled operations.
* The S3 network calls are external collaborators: `get` takes the fetched
  body as an argument, `put`/`delete` return the command parameters they
  would send, `list` takes the listed object keys as an argument.
-/

set_option maxRecDepth 100000
set_option linter.unusedVariables false

namespace SecureS3

/-- JS string, as its character sequence. -/
abbrev JStr := List Char

/-- Node Buffer contents, as a list of byte values. -/
abbrev Bytes := List Nat

/-- Error classes of SecureS3Store.ts (distinguished there by `this.name`).
`decryptionError` records the KID its message names (its single construction
site is the lookup failure in `get`).  `configurationError` is the class the
spec's error taxonomy (spec §7) uses for Key Ring construction failures; the
source defines no such class and never constructs it — it is present so that
the spec-side claim can be stated and compared. -/
inductive StoreError where
  | validationError (msg : String)
  | s3Error (msg : String)
  | decryptionError (kid : Bytes)
  | notFoundError (msg : String)
  | configurationError (msg : String)
deriving DecidableEq, Repr

/-- Decidable equality for `Except` results, so concrete runs of the model
can be checked by `decide`. -/
instance {ε α : Type} [DecidableEq ε] [DecidableEq α] : DecidableEq (Except ε α)
  | .ok a, .ok b =>
    if h : a = b then .isTrue (by rw [h]) else .isFalse (by simp [h])
  | .ok _, .error _ => .isFalse (by simp)
  | .error _, .ok _ => .isFalse (by simp)
  | .error e, .error f =>
    if h : e = f then .isTrue (by rw [h]) else .isFalse (by simp [h])

/-- JS `error.name` of each error class. -/
def errName : StoreError → String
  | .validationError _ => "ValidationError"
  | .s3Error _ => "S3Error"
  | .decryptionError _ => "DecryptionError"
  | .notFoundError _ => "NotFoundError"
  | .configurationError _ => "ConfigurationError"

/-- Name of the error class of a failed result (empty string on success). -/
def errNameOf {α : Type} : Except StoreError α → String
  | .error e => errName e
  | .ok _ => ""

/-- Result is a thrown ValidationError. -/
def isValidationFailure {α : Type} : Except StoreError α → Bool
  | .error (.validationError _) => true
  | _ => false

/-- UTF-8 encoding of one code point (standard 1–4 byte forms). -/
def utf8EncodeChar (n : Nat) : List Nat :=
  if n < 128 then [n]
  else if n < 2048 then [192 + n / 64, 128 + n % 64]
  else if n < 65536 then [224 + n / 4096, 128 + n / 64 % 64, 128 + n % 64]
  else [240 + n / 262144, 128 + n / 4096 % 64, 128 + n / 64 % 64, 128 + n % 64]

/-- UTF-8 encoding of a string (`Buffer.from(s, 'utf8')`). -/
def utf8Encode : JStr → Bytes
  | [] => []
  | c :: rest => utf8EncodeChar c.toNat ++ utf8Encode rest

/-- Hex digit test, as in the constructor's regex `[0-9a-fA-F]`. -/
def isHexDigit (c : Char) : Bool :=
  (48 ≤ c.toNat && c.toNat ≤ 57) || (97 ≤ c.toNat && c.toNat ≤ 102)
    || (65 ≤ c.toNat && c.toNat ≤ 70)

/-- The constructor's key-shape test: the regex `^[0-9a-fA-F]{64}$`. -/
def isHex64 (s : JStr) : Bool := s.length = 64 && s.all isHexDigit

/-- Numeric value of a hex digit character. -/
def hexVal (c : Char) : Nat :=
  if c.toNat ≤ 57 then c.toNat - 48
  else if c.toNat ≤ 70 then c.toNat - 55
  else c.toNat - 87

/-- Hex decoding, `Buffer.from(s, 'hex')` on an even-length hex string. -/
def hexDecode : JStr → Bytes
  | c1 :: c2 :: rest => (hexVal c1 * 16 + hexVal c2) :: hexDecode rest
  | _ => []

/-- Integer value of a byte string (big-endian), an auxiliary hash for the
ideal cipher model. -/
def natOfBytes : Bytes → Nat := List.foldl (fun a b => a * 256 + b) 0

/-- A 128-bit value as 16 little-endian bytes. -/
def tagBytes (n : Nat) : Bytes := (List.range 16).map (fun i => n / 256 ^ i % 256)

/-- Keystream byte `i` of the ideal cipher for a given key and IV. -/
def ksByte (key iv : Bytes) (i : Nat) : Nat :=
  (natOfBytes key * 131 + natOfBytes iv * 17 + i * 97 + 1) % 256

/-- XOR of a byte string against the keystream starting at index `i`; applied
once by `cipher.update`/`final` and once by the decipher. -/
def xorStream (key iv : Bytes) : Nat → Bytes → Bytes
  | _, [] => []
  | i, b :: rest => (b ^^^ ksByte key iv i) :: xorStream key iv (i + 1) rest

/-- The 16-byte authentication tag of the ideal AEAD: a deterministic
function of key, IV and ciphertext (GCM computes GHASH over the ciphertext
keyed by the key/IV-derived hash subkey; only determinism and the 16-byte
shape matter for the source-level claims). -/
def tagF (key iv ct : Bytes) : Bytes :=
  tagBytes ((natOfBytes (key ++ iv ++ ct) + ct.length) % 2 ^ 128)

/-- Authenticated decryption (`createDecipheriv` + `setAuthTag` + `update` +
`final`).  `createDecipheriv` is called without an `authTagLength` option,
so Node's `setAuthTag` accepts not only the full 16-byte tag but also the
NIST-allowed truncated lengths of 15, 14, 13, 12, 8 or 4 bytes, and `final`
verifies the supplied tag against the corresponding truncation of the
computed tag; every other tag length, and any mismatch, throws, modelled as
`none`.  The 16-byte IV guard matches the decoder's reachable states: the
decoder slices the IV with `take 16`, and whenever that slice is shorter
than 16 the tag slice after it is empty, an invalid tag length, so Node
throws there too. -/
def decryptGCM (key iv tag ct : Bytes) : Option Bytes :=
  if iv.length = 16
      ∧ (tag.length = 16 ∨ tag.length = 15 ∨ tag.length = 14 ∨ tag.length = 13
        ∨ tag.length = 12 ∨ tag.length = 8 ∨ tag.length = 4)
      ∧ tag = (tagF key iv ct).take tag.length then
    some (xorStream key iv 0 ct)
  else none

/-- The `SecureS3StoreConfig` fields the core consumes: `keys` is the JS
object as an association list in insertion order (JS object keys are
distinct), `primaryKey` the chosen identifier, `maxFileSize` the optional
limit. -/
structure StoreCfg where
  keys : List (JStr × JStr)
  primaryKey : JStr
  maxFileSize : Option Nat
deriving DecidableEq, Repr

/-- The constructed store: `keys` made into a map of decoded 32-byte keys,
plus the primary identifier and resolved size limit. -/
structure Store where
  keys : List (JStr × Bytes)
  primaryKey : JStr
  maxFileSize : Nat
deriving DecidableEq, Repr

def msgNoKeys : String := "At least one key must be provided in the `keys` configuration."

def msgPrimary : String := "The `primaryKey` must be a valid key identifier present in the `keys` configuration."

/-- Message of the bad-key rejection (the source interpolates the offending
KID into it; the interpolated text is irrelevant to every claim). -/
def msgBadKey : String := "Invalid secretKey: Must be a 64-character hex string."

def msgEmptyData : String := "Input data cannot be null or empty"

/-- Message of the oversized-input rejection (the source interpolates the
two byte counts). -/
def msgTooLarge : String := "File size exceeds maximum limit"

def msgPathEmpty : String := "Path must be a non-empty string."

def msgPathFormat : String := "Invalid path format. Must be `bucket-name/key`."

def msgPathParts : String := "Invalid path format. Bucket and key must not be empty."

/-- S3Error message produced when a cipher-layer exception is caught by
`get`'s generic handler (Node's message text varies by sub-case; the class
does not). -/
def cryptoFailMsg : String := "S3 GetObject failed: Unsupported state or unable to authenticate data"

/-- Resolution of `config.maxFileSize || 100 * 1024 * 1024` (JS `||` treats
both `undefined` and `0` as absent). -/
def maxOf : Option Nat → Nat
  | none => 104857600
  | some n => if n = 0 then 104857600 else n

/-- The constructor of `SecureS3Store` (key-ring part).  Mirrors, in order:
the empty-`keys` check; the `!config.primaryKey || !config.keys[primaryKey]`
check (an empty string value is falsy, like a missing one); the per-entry
hex-shape check, failing on the first offender in insertion order; then the
decoded key map and resolved limit. -/
def mkStore (cfg : StoreCfg) : Except StoreError Store :=
  if cfg.keys = [] then .error (.validationError msgNoKeys)
  else if cfg.primaryKey = [] ∨ cfg.keys.lookup cfg.primaryKey = none
      ∨ cfg.keys.lookup cfg.primaryKey = some [] then
    .error (.validationError msgPrimary)
  else
    match cfg.keys.find? (fun e => !isHex64 e.2) with
    | some _ => .error (.validationError msgBadKey)
    | none =>
      .ok ⟨cfg.keys.map (fun e => (e.1, hexDecode e.2)), cfg.primaryKey,
        maxOf cfg.maxFileSize⟩

/-- `validateInput`: rejects empty data, then data above the limit. -/
def validateInput (st : Store) (data : Bytes) : Option StoreError :=
  if data.length = 0 then some (.validationError msgEmptyData)
  else if data.length > st.maxFileSize then some (.validationError msgTooLarge)
  else none

/-- First framing read of `get`: `encryptedData[0]` (on an empty buffer the
JS index is `undefined` and the subsequent slices collapse to the same empty
kid this total version produces). -/
def kidLenOf (env : Bytes) : Nat := env.headD 0

/-- Second framing read of `get`: `encryptedData.slice(1, 1 + kidLength)`. -/
def kidOf (env : Bytes) : Bytes := (env.drop 1).take (kidLenOf env)

/-- The decode-side key lookup `this.keys.get(kid)` applied to the sliced
kid bytes (see the module comment on the byte-level modelling of
`toString('utf8')` + string-keyed `Map.get`). -/
def lookupByBytes (keys : List (JStr × Bytes)) (kid : Bytes) : Option Bytes :=
  match keys.find? (fun e => utf8Encode e.1 == kid) with
  | some e => some e.2
  | none => none

/-- The envelope assembly of `put`: `kidLength ++ kid ++ iv ++ authTag ++
encrypted`, with the primary key fetched by `this.keys.get(this.primaryKey)!`
and `kidLength` a single byte (`Buffer.from([kid.length])` stores the length
modulo 256). -/
def encodeEnvelope (st : Store) (iv p : Bytes) : Bytes :=
  let secretKey := (st.keys.lookup st.primaryKey).getD []
  let kid := utf8Encode st.primaryKey
  let ct := xorStream secretKey iv 0 p
  let authTag := tagF secretKey iv ct
  (kid.length % 256) :: (kid ++ iv ++ authTag ++ ct)

/-- The codec-level encode path of `put` after path parsing: input
validation followed by envelope assembly. -/
def putBody (st : Store) (iv p : Bytes) : Except StoreError Bytes :=
  match validateInput st p with
  | some e => .error e
  | none => .ok (encodeEnvelope st iv p)

/-- The decode path of `get` on the fetched body: slice out `kidLength`,
`kid`, `iv`, `authTag`, `encrypted` at the derived offsets, look up the key
(throwing `DecryptionError` naming the KID when absent), then run the
authenticated decipher; a cipher-layer throw is caught by the surrounding
handler and rethrown as `S3Error`. -/
def decodeEnvelope (st : Store) (env : Bytes) : Except StoreError Bytes :=
  let kid := kidOf env
  match lookupByBytes st.keys kid with
  | none => .error (.decryptionError kid)
  | some secretKey =>
    let ivOffset := 1 + kidLenOf env
    let iv := (env.drop ivOffset).take 16
    let authTag := (env.drop (ivOffset + 16)).take 16
    let encrypted := env.drop (ivOffset + 16 + 16)
    match decryptGCM secretKey iv authTag encrypted with
    | some plain => .ok plain
    | none => .error (.s3Error cryptoFailMsg)

/-- `path.split('/')` (JS `String.split` on a one-character separator:
`''` yields `['']`, a trailing separator yields a trailing `''`). -/
def splitSlash : List Char → List (List Char)
  | [] => [[]]
  | c :: rest =>
    match splitSlash rest with
    | [] => [[]]
    | h :: t => if c = '/' then [] :: h :: t else (c :: h) :: t

/-- `parts.join('/')`. -/
def joinSlash : List (List Char) → List Char
  | [] => []
  | [x] => x
  | x :: xs => x ++ '/' :: joinSlash xs

/-- `SecureS3Store.parsePath`: reject the empty path, split on `/`, require
at least two parts, take `parts[0]` as bucket and the rejoined remainder as
key, and reject an empty bucket or key.  (The JS `typeof path !== 'string'`
arm is unrepresentable in the typed model.) -/
def parsePath (path : JStr) : Except StoreError (JStr × JStr) :=
  if path = [] then .error (.validationError msgPathEmpty)
  else
    let parts := splitSlash path
    if parts.length < 2 then .error (.validationError msgPathFormat)
    else
      let bucket := parts.headD []
      let key := joinSlash (parts.drop 1)
      if bucket = [] ∨ key = [] then .error (.validationError msgPathParts)
      else .ok (bucket, key)

/-- The stored-object suffix appended by `put`/`get`/`delete`. -/
def encSuffix : JStr := ['.', 'e', 'n', 'c']

/-- `put`: parse the path, validate the plaintext, and produce the
`PutObjectCommand` parameters — bucket, object key `` `${key}.enc` `` and the
envelope body (the actual `s3Client.send` is the external collaborator). -/
def put (st : Store) (path : JStr) (data iv : Bytes) :
    Except StoreError (JStr × JStr × Bytes) :=
  match parsePath path with
  | .error e => .error e
  | .ok (bucket, key) =>
    match validateInput st data with
    | some e => .error e
    | none => .ok (bucket, key ++ encSuffix, encodeEnvelope st iv data)

/-- `get`: parse the path (before the `try` block, so its `ValidationError`
propagates unwrapped), then decode the body the S3 collaborator returned for
`` `${key}.enc` ``. -/
def get (st : Store) (path : JStr) (body : Bytes) : Except StoreError Bytes :=
  match parsePath path with
  | .error e => .error e
  | .ok _ => decodeEnvelope st body

/-- `delete`: parse the path and produce the `DeleteObjectCommand`
parameters. -/
def delete (st : Store) (path : JStr) : Except StoreError (JStr × JStr) :=
  match parsePath path with
  | .error e => .error e
  | .ok (bucket, key) => .ok (bucket, key ++ encSuffix)

/-- JS `key.endsWith('.enc')`. -/
def endsWithEnc (k : JStr) : Bool := k.drop (k.length - 4) == encSuffix

/-- JS `key.slice(0, -4)`. -/
def stripEnc (k : JStr) : JStr := k.take (k.length - 4)

/-- `list`: parse the path, then over the object keys the S3 collaborator
returned (the pagination loop's accumulated `Contents`), keep the truthy
keys ending in `.enc`, strip that suffix, and apply
`slice(offset, offset + limit)`. -/
def list (st : Store) (path : JStr) (contents : List JStr)
    (offset limit : Nat) : Except StoreError (List JStr) :=
  match parsePath path with
  | .error e => .error e
  | .ok _ =>
    .ok ((((contents.filter (fun k => !(k == []) && endsWithEnc k)).map
      stripEnc).drop offset).take limit)

/-- Configuration of the unit tests: `keys: { v1: 'a'.repeat(64) }`,
`primaryKey: 'v1'`, no explicit `maxFileSize`. -/
def cfgV1 : StoreCfg :=
  ⟨[(['v', '1'], List.replicate 64 'a')], ['v', '1'], none⟩

/-- The store `cfgV1` constructs: the 64 `a`s decode to 32 `0xaa` bytes. -/
def stV1 : Store :=
  ⟨[(['v', '1'], List.replicate 32 170)], ['v', '1'], 104857600⟩

/-- A 256-character identifier: its UTF-8 byte length does not fit the
envelope's single length byte. -/
def kid256 : JStr := List.replicate 256 'a'

/-- Configuration with the oversized identifier `kid256` as its only (and
primary) key. -/
def cfg256 : StoreCfg := ⟨[(kid256, List.replicate 64 'a')], kid256, none⟩

/-- The store `cfg256` constructs. -/
def st256 : Store := ⟨[(kid256, List.replicate 32 170)], kid256, 104857600⟩

/-- An all-zero 16-byte IV (one possible `randomBytes(16)` outcome). -/
def ivZ : Bytes := List.replicate 16 0

/-- Concrete witness plaintext, the bytes of "Hi". -/
def pW : Bytes := [72, 105]

/-- Code points of well-formed strings are below 0x110000. -/
lemma char_toNat_lt (c : Char) : c.toNat < 1114112 := by
  rcases c.valid with h | ⟨_, h2⟩
  · exact lt_trans h (by norm_num)
  · exact h2

/-- Characters with equal code points are equal. -/
lemma char_eq_of_toNat {a b : Char} (h : a.toNat = b.toNat) : a = b := by
  cases a; cases b
  simp only [Char.toNat] at h
  congr 1
  exact UInt32.ext_iff.mpr h

/-- A code point's UTF-8 encoding is never empty. -/
lemma utf8EncodeChar_ne_nil {n : Nat} : utf8EncodeChar n ≠ [] := by
  unfold utf8EncodeChar
  split_ifs <;> simp

/-- Unique decodability of UTF-8: a valid code point's encoding determines
the code point and the remainder of the byte stream. -/
lemma utf8EncodeChar_append_inj {m n : Nat} (hm : m < 1114112) (hn : n < 1114112)
    {xs ys : List Nat} (h : utf8EncodeChar m ++ xs = utf8EncodeChar n ++ ys) :
    m = n ∧ xs = ys := by
  unfold utf8EncodeChar at h
  split_ifs at h <;>
    simp only [List.cons_append, List.nil_append, List.cons.injEq] at h
  all_goals try exact ⟨by omega, h.2⟩
  all_goals try exact ⟨by omega, h.2.2⟩
  all_goals try exact ⟨by omega, h.2.2.2⟩
  all_goals try exact ⟨by omega, h.2.2.2.2⟩
  all_goals exact absurd h.1 (by omega)

/-- UTF-8 encoding is injective on well-formed strings (so the byte-level
key lookup of the model coincides with the string-keyed `Map.get` of the
source). -/
lemma utf8Encode_inj : ∀ {s t : JStr}, utf8Encode s = utf8Encode t → s = t := by
  intro s
  induction s with
  | nil =>
    intro t h
    cases t with
    | nil => rfl
    | cons d t =>
      exfalso
      have h' : utf8EncodeChar d.toNat ++ utf8Encode t = [] := by
        simpa [utf8Encode] using h.symm
      exact utf8EncodeChar_ne_nil (List.append_eq_nil.mp h').1
  | cons c s ih =>
    intro t h
    cases t with
    | nil =>
      exfalso
      have h' : utf8EncodeChar c.toNat ++ utf8Encode s = [] := by
        simpa [utf8Encode] using h
      exact utf8EncodeChar_ne_nil (List.append_eq_nil.mp h').1
    | cons d t =>
      simp only [utf8Encode] at h
      obtain ⟨h1, h2⟩ :=
        utf8EncodeChar_append_inj (char_toNat_lt c) (char_toNat_lt d) h
      simp [char_eq_of_toNat h1, ih h2]

/-- Looking up in the decoded-key map is looking up in the configuration. -/
lemma lookup_map_hexDecode (l : List (JStr × JStr)) (k : JStr) :
    (l.map (fun e => (e.1, hexDecode e.2))).lookup k = (l.lookup k).map hexDecode := by
  induction l with
  | nil => rfl
  | cons a t ih =>
    by_cases h : k == a.1 <;> simp [List.lookup, h, ih]

/-- The decode side's lookup of an honestly encoded identifier agrees with
the string-keyed lookup. -/
lemma lookupByBytes_encode (l : List (JStr × Bytes)) (k : JStr) :
    lookupByBytes l (utf8Encode k) = l.lookup k := by
  induction l with
  | nil => rfl
  | cons a t ih =>
    by_cases hk : a.1 = k
    · subst hk
      simp [lookupByBytes, List.lookup, List.find?]
    · have hne : (utf8Encode a.1 == utf8Encode k) = false := by
        simp only [beq_eq_false_iff_ne, ne_eq]
        intro hc
        exact hk (utf8Encode_inj hc)
      have hne' : (k == a.1) = false := by
        simp only [beq_eq_false_iff_ne, ne_eq]
        exact fun h => hk h.symm
      simp only [lookupByBytes, List.find?, hne, List.lookup, hne'] at *
      exact ih

/-- Keystream XOR preserves length. -/
lemma xorStream_length (key iv : Bytes) :
    ∀ (i : Nat) (p : Bytes), (xorStream key iv i p).length = p.length := by
  intro i p
  induction p generalizing i with
  | nil => rfl
  | cons b rest ih => simp [xorStream, ih]

/-- Keystream XOR is an involution at a fixed starting index. -/
lemma xorStream_xorStream (key iv : Bytes) :
    ∀ (i : Nat) (p : Bytes), xorStream key iv i (xorStream key iv i p) = p := by
  intro i p
  induction p generalizing i with
  | nil => rfl
  | cons b rest ih =>
    simp [xorStream, ih, Nat.xor_assoc]

/-- The model tag always has the cipher's 16-byte shape. -/
lemma tagF_length (key iv ct : Bytes) : (tagF key iv ct).length = 16 := by
  simp [tagF, tagBytes]

/-- Inversion of a successful construction: the shape of the resulting
store plus the constructor checks that must have passed. -/
lemma mkStore_ok {cfg : StoreCfg} {st : Store} (h : mkStore cfg = .ok st) :
    st.keys = cfg.keys.map (fun e => (e.1, hexDecode e.2)) ∧
    st.primaryKey = cfg.primaryKey ∧
    st.maxFileSize = maxOf cfg.maxFileSize ∧
    cfg.primaryKey ≠ [] ∧
    (∃ sk, cfg.keys.lookup cfg.primaryKey = some sk ∧ sk ≠ []) := by
  unfold mkStore at h
  split_ifs at h with h1 h2
  split at h
  · exact Except.noConfusion h
  · injection h with h
    subst h
    push_neg at h2
    refine ⟨rfl, rfl, rfl, h2.1, ?_⟩
    rcases ho : cfg.keys.lookup cfg.primaryKey with _ | sk
    · exact absurd ho h2.2.1
    · refine ⟨sk, rfl, fun hsk => h2.2.2 ?_⟩
      rw [ho, hsk]

/-- Slices of an assembled envelope whose identifier fits the length byte:
each framing field is recovered at its derived offset. -/
lemma env_slices (kid iv tag ct : Bytes) (hkl : kid.length ≤ 255)
    (hiv : iv.length = 16) (htag : tag.length = 16) :
    kidLenOf (kid.length % 256 :: (kid ++ iv ++ tag ++ ct)) = kid.length ∧
    kidOf (kid.length % 256 :: (kid ++ iv ++ tag ++ ct)) = kid ∧
    ((kid.length % 256 :: (kid ++ iv ++ tag ++ ct)).drop (1 + kid.length)).take 16 = iv ∧
    ((kid.length % 256 :: (kid ++ iv ++ tag ++ ct)).drop (1 + kid.length + 16)).take 16 = tag ∧
    (kid.length % 256 :: (kid ++ iv ++ tag ++ ct)).drop (1 + kid.length + 16 + 16) = ct := by
  have hmod : kid.length % 256 = kid.length := Nat.mod_eq_of_lt (by omega)
  have hd1 : (kid.length % 256 :: (kid ++ iv ++ tag ++ ct)).drop (1 + kid.length)
      = iv ++ tag ++ ct := by
    rw [show 1 + kid.length = kid.length + 1 by omega, List.drop_succ_cons,
      List.append_assoc, List.append_assoc, List.drop_left]
    simp [List.append_assoc]
  have hd2 : (kid.length % 256 :: (kid ++ iv ++ tag ++ ct)).drop (1 + kid.length + 16)
      = tag ++ ct := by
    rw [← List.drop_drop, hd1, List.append_assoc, ← hiv, List.drop_left]
  have hd3 : (kid.length % 256 :: (kid ++ iv ++ tag ++ ct)).drop (1 + kid.length + 16 + 16)
      = ct := by
    rw [← List.drop_drop, hd2, ← htag, List.drop_left]
  refine ⟨by simp [kidLenOf, hmod], ?_, ?_, ?_, hd3⟩
  · simp only [kidOf, kidLenOf, List.headD_cons, List.drop_one, List.tail_cons, hmod]
    rw [List.append_assoc, List.append_assoc, List.take_left]
  · rw [hd1, List.append_assoc, ← hiv, List.take_left]
  · rw [hd2, ← htag, List.take_left]

/-- Central round-trip lemma: an envelope framed by store `stE` decodes to
the original plaintext under store `stD`, provided the embedded identifier
fits the length byte, the IV has the generated 16-byte shape, and the
decode-side lookup returns the key `put` encrypted with. -/
lemma decode_encode_cross {stE stD : Store} {K iv p : Bytes}
    (hkl : (utf8Encode stE.primaryKey).length ≤ 255)
    (hiv : iv.length = 16)
    (hKE : stE.keys.lookup stE.primaryKey = some K)
    (hKD : lookupByBytes stD.keys (utf8Encode stE.primaryKey) = some K) :
    decodeEnvelope stD (encodeEnvelope stE iv p) = .ok p := by
  unfold encodeEnvelope decodeEnvelope
  rw [hKE]
  obtain ⟨h1, h2, h3, h4, h5⟩ := env_slices (utf8Encode stE.primaryKey) iv
    (tagF K iv (xorStream K iv 0 p)) (xorStream K iv 0 p) hkl hiv
    (tagF_length ..)
  simp only [Option.getD_some, h1, h2, h3, h4, h5, hKD]
  unfold decryptGCM
  rw [if_pos ⟨hiv, Or.inl (tagF_length ..), (List.take_length _).symm⟩,
    xorStream_xorStream]

/-- Inversion of a successful codec-level encode: the validation passed and
the result is the assembled envelope. -/
lemma putBody_ok {st : Store} {iv p env : Bytes} (h : putBody st iv p = .ok env) :
    env = encodeEnvelope st iv p ∧ p.length ≠ 0 ∧ ¬p.length > st.maxFileSize := by
  unfold putBody validateInput at h
  split_ifs at h with d1 d2
  all_goals first
    | exact Except.noConfusion h
    | (injection h with h; exact ⟨h.symm, d1, d2⟩)

/-- The embedded identifier of an assembled envelope, when it fits the
length byte. -/
lemma kidOf_encode (st : Store) (iv p : Bytes)
    (hkl : (utf8Encode st.primaryKey).length ≤ 255) :
    kidOf (encodeEnvelope st iv p) = utf8Encode st.primaryKey := by
  unfold encodeEnvelope kidOf kidLenOf
  simp only [List.headD_cons,
    Nat.mod_eq_of_lt (show (utf8Encode st.primaryKey).length < 256 by omega),
    List.drop_one, List.tail_cons]
  rw [List.append_assoc, List.append_assoc, List.take_left]

/-- `split('/')` never yields an empty parts list. -/
lemma splitSlash_ne_nil (l : List Char) : splitSlash l ≠ [] := by
  cases l with
  | nil => simp [splitSlash]
  | cons c rest =>
    unfold splitSlash
    rcases h : splitSlash rest with _ | ⟨hh, t⟩
    · simp
    · split_ifs <;> simp

/-- A separator-free string splits into itself alone. -/
lemma splitSlash_no_slash : ∀ {l : List Char}, '/' ∉ l → splitSlash l = [l] := by
  intro l
  induction l with
  | nil => intro _; rfl
  | cons c rest ih =>
    intro h
    have hc : c ≠ '/' := fun hc => h (hc ▸ List.mem_cons_self c rest)
    have hr : '/' ∉ rest := fun hr => h (List.mem_cons_of_mem _ hr)
    unfold splitSlash
    rw [ih hr]
    simp [hc]

/-- A string with a separator splits into the text before the first `/`
followed by the split of the text after it. -/
lemma splitSlash_slash : ∀ {l : List Char}, '/' ∈ l →
    splitSlash l = l.takeWhile (fun c => !(c == '/')) ::
      splitSlash ((l.dropWhile (fun c => !(c == '/'))).drop 1) := by
  intro l
  induction l with
  | nil => intro h; exact absurd h (List.not_mem_nil _)
  | cons c rest ih =>
    intro h
    obtain ⟨hh, t, heq⟩ := List.exists_cons_of_ne_nil (splitSlash_ne_nil rest)
    by_cases hc : c = '/'
    · subst hc
      have hL : splitSlash ('/' :: rest) = [] :: splitSlash rest := by
        simp only [splitSlash, heq]
        simp
      rw [hL]
      simp [List.takeWhile_cons, List.dropWhile_cons]
    · have hr : '/' ∈ rest := by
        rcases List.mem_cons.mp h with h' | h'
        · exact absurd h'.symm hc
        · exact h'
      have hcb : (c == '/') = false := by
        simp only [beq_eq_false_iff_ne, ne_eq]
        exact hc
      have hL : splitSlash (c :: rest) = (c :: hh) :: t := by
        simp only [splitSlash, heq]
        simp [hc]
      rw [hL]
      have hR := ih hr
      rw [heq] at hR
      simp only [List.cons.injEq] at hR
      simp [List.takeWhile_cons, List.dropWhile_cons, hcb, hR.1, hR.2]

/-- Rejoining the split parts recovers the original string. -/
lemma joinSlash_splitSlash : ∀ (l : List Char), joinSlash (splitSlash l) = l := by
  intro l
  induction l with
  | nil => rfl
  | cons c rest ih =>
    obtain ⟨hh, t, heq⟩ := List.exists_cons_of_ne_nil (splitSlash_ne_nil rest)
    rw [heq] at ih
    by_cases hc : c = '/'
    · subst hc
      unfold splitSlash
      rw [heq]
      simp only [if_pos rfl]
      unfold joinSlash
      cases t <;> simpa using ih
    · unfold splitSlash
      rw [heq]
      simp only [if_neg hc]
      cases t with
      | nil =>
        unfold joinSlash at ih ⊢
        rw [ih]
      | cons t1 ts =>
        unfold joinSlash at ih ⊢
        rw [List.cons_append, ih]

/-- Path shapes claim C10 describes as rejected: the empty path, a path
with no `/` separator, or an empty bucket or key part. -/
def badPath (p : JStr) : Prop :=
  p = [] ∨ '/' ∉ p ∨ p.takeWhile (fun c => !(c == '/')) = [] ∨
    (p.dropWhile (fun c => !(c == '/'))).drop 1 = []

/-- Every rejected path shape makes `parsePath` throw a ValidationError. -/
lemma parsePath_bad {p : JStr} (h : badPath p) :
    isValidationFailure (parsePath p) = true := by
  unfold parsePath
  by_cases hp : p = []
  · simp [hp, isValidationFailure]
  · rw [if_neg hp]
    by_cases hs : '/' ∈ p
    · have hsplit := splitSlash_slash hs
      have hlen : ¬(splitSlash p).length < 2 := by
        rw [hsplit]
        obtain ⟨a, as, hx⟩ := List.exists_cons_of_ne_nil
          (splitSlash_ne_nil ((p.dropWhile (fun c => !(c == '/'))).drop 1))
        rw [hx]
        simp
      rw [if_neg hlen]
      have hb : (splitSlash p).headD [] = p.takeWhile (fun c => !(c == '/')) := by
        rw [hsplit]
        rfl
      have hk : joinSlash ((splitSlash p).drop 1)
          = (p.dropWhile (fun c => !(c == '/'))).drop 1 := by
        rw [hsplit, List.drop_one, List.tail_cons]
        exact joinSlash_splitSlash _
      rw [if_pos]
      · simp [isValidationFailure]
      · rw [hb, hk]
        rcases h with h | h | h | h
        · exact absurd h hp
        · exact absurd hs h
        · exact Or.inl h
        · exact Or.inr h
    · rw [splitSlash_no_slash hs]
      simp [isValidationFailure]

/-- Every accepted path splits into the text before the first `/` as bucket
and everything after it as key. -/
lemma parsePath_good {p : JStr} (h : ¬badPath p) :
    parsePath p = .ok (p.takeWhile (fun c => !(c == '/')),
      (p.dropWhile (fun c => !(c == '/'))).drop 1) := by
  unfold badPath at h
  push_neg at h
  obtain ⟨hp, hs, hb, hk⟩ := h
  unfold parsePath
  rw [if_neg hp]
  have hsplit := splitSlash_slash hs
  have hlen : ¬(splitSlash p).length < 2 := by
    rw [hsplit]
    obtain ⟨a, as, hx⟩ := List.exists_cons_of_ne_nil
      (splitSlash_ne_nil ((p.dropWhile (fun c => !(c == '/'))).drop 1))
    rw [hx]
    simp
  rw [if_neg hlen]
  have hb' : (splitSlash p).headD [] = p.takeWhile (fun c => !(c == '/')) := by
    rw [hsplit]
    rfl
  have hk' : joinSlash ((splitSlash p).drop 1)
      = (p.dropWhile (fun c => !(c == '/'))).drop 1 := by
    rw [hsplit, List.drop_one, List.tail_cons]
    exact joinSlash_splitSlash _
  rw [if_neg, hb', hk']
  rw [hb', hk']
  exact not_or.mpr ⟨hb, hk⟩

/-- Whether a thrown error is a ValidationError does not depend on the
result type of the operation that threw it. -/
lemma isVF_error (α β : Type) (e : StoreError) :
    isValidationFailure (Except.error e : Except StoreError α)
      = isValidationFailure (Except.error e : Except StoreError β) := by
  cases e <;> rfl

/-- A path-parse failure propagates unchanged through every public
operation (the parse happens before any validation, cipher use, or S3
command construction). -/
lemma ops_fail (st : Store) {p : JStr} {e : StoreError} (data iv body : Bytes)
    (contents : List JStr) (off lim : Nat) (h : parsePath p = .error e) :
    put st p data iv = .error e ∧ get st p body = .error e ∧
    delete st p = .error e ∧ list st p contents off lim = .error e := by
  unfold put get delete list
  rw [h]
  exact ⟨rfl, rfl, rfl, rfl⟩

/-- Appending the stored-object suffix always satisfies the listing
filter. -/
lemma endsWithEnc_append (k : JStr) : endsWithEnc (k ++ encSuffix) = true := by
  unfold endsWithEnc
  have h4 : encSuffix.length = 4 := rfl
  rw [List.length_append, h4, show k.length + 4 - 4 = k.length by omega,
    List.drop_left]
  exact beq_self_eq_true _

/-- Stripping the suffix undoes appending it. -/
lemma stripEnc_append (k : JStr) : stripEnc (k ++ encSuffix) = k := by
  unfold stripEnc
  have h4 : encSuffix.length = 4 := rfl
  rw [List.length_append, h4, show k.length + 4 - 4 = k.length by omega,
    List.take_left]

/-- A key passing the `.enc` filter is its stripped form with the suffix
re-appended. -/
lemma stripEnc_endsWith {k : JStr} (h : endsWithEnc k = true) :
    stripEnc k ++ encSuffix = k := by
  unfold endsWithEnc at h
  have h' : k.drop (k.length - 4) = encSuffix := beq_iff_eq.mp h
  unfold stripEnc
  conv_rhs => rw [← List.take_append_drop (k.length - 4) k]
  rw [h']

/-- Every key in a listing result is a listed object key with the `.enc`
suffix stripped. -/
lemma list_mem_of {st : Store} {p : JStr} {contents : List JStr} {off lim : Nat}
    {res : List JStr} {s : JStr} (h : list st p contents off lim = .ok res)
    (hs : s ∈ res) : s ++ encSuffix ∈ contents := by
  unfold list at h
  cases hpp : parsePath p with
  | error e =>
    rw [hpp] at h
    exact Except.noConfusion h
  | ok v =>
    rw [hpp] at h
    injection h with h
    subst h
    have hs1 := List.mem_of_mem_take hs
    have hs2 := List.mem_of_mem_drop hs1
    obtain ⟨k, hk, hsk⟩ := List.mem_map.mp hs2
    obtain ⟨hkc, hkp⟩ := List.mem_filter.mp hk
    have hke : endsWithEnc k = true := by
      simp only [Bool.and_eq_true] at hkp
      exact hkp.2
    rw [← hsk, stripEnc_endsWith hke]
    exact hkc

/-- Single-bit corruption of a stored envelope: XOR bit `b` into byte `i`. -/
def flipBit (env : Bytes) (i b : Nat) : Bytes := env.set i (env.getD i 0 ^^^ 2 ^ b)

/-- Configuration like `cfgV1` but with an explicit 3-byte size limit. -/
def cfgM3 : StoreCfg :=
  ⟨[(['v', '1'], List.replicate 64 'a')], ['v', '1'], some 3⟩

/-- The store `cfgM3` constructs. -/
def stM3 : Store := ⟨[(['v', '1'], List.replicate 32 170)], ['v', '1'], 3⟩

/-- A minimal valid path, `b/k`. -/
def pathBK : JStr := ['b', '/', 'k']

/-- The rotated two-key store of the C8 witness: `v1` and `v2` with
distinct 32-byte keys (the hex strings of 64 `a`s and 64 `b`s), primary
`v2`. -/
def stBW : Store :=
  ⟨[(['v', '1'], List.replicate 32 170), (['v', '2'], List.replicate 32 187)],
    ['v', '2'], 104857600⟩

/-- The unknown-KID envelope of the unit test: declared kid `v2`, an
all-zero IV and tag, and the bytes of "encrypted-data". -/
def envV2 : Bytes :=
  [2, 118, 50] ++ List.replicate 32 0 ++
    [101, 110, 99, 114, 121, 112, 116, 101, 100, 45, 100, 97, 116, 97]

/-- A 31-byte envelope — shorter than the 35-byte minimum its kid implies —
that nevertheless decodes under `stV1`: kid `v1`, a full 16-byte IV, and a
valid 12-byte truncated tag over the empty ciphertext (Node accepts 12-byte
GCM tags when `createDecipheriv` is given no `authTagLength`). -/
def shortOkEnv : Bytes :=
  [2, 118, 49] ++ List.replicate 16 0 ++
    (tagF (List.replicate 32 170) (List.replicate 16 0) []).take 12

/-- C1 (amended): for every non-empty plaintext within the configured
maximum and every validly constructed key ring whose primary identifier's
UTF-8 encoding fits the envelope's single length byte (at most 255 bytes),
decoding the envelope produced by the put-side framing returns exactly the
original plaintext.  (Without the length-byte condition the claim fails:
see the counterexample — construction accepts longer identifiers and the
length byte is written modulo 256, which breaks the framing.) -/
theorem c1_round_trip (cfg : StoreCfg) (st : Store) (p iv env : Bytes)
    (hst : mkStore cfg = .ok st)
    (hkl : (utf8Encode cfg.primaryKey).length ≤ 255)
    (hiv : iv.length = 16)
    (henv : putBody st iv p = .ok env) :
    decodeEnvelope st env = .ok p := by
  obtain ⟨hk, hpk, _, _, sk, hlk, _⟩ := mkStore_ok hst
  obtain ⟨henv', _, _⟩ := putBody_ok henv
  subst henv'
  have hlk' : st.keys.lookup st.primaryKey = some (hexDecode sk) := by
    rw [hk, hpk, lookup_map_hexDecode, hlk]
    rfl
  exact decode_encode_cross (by rwa [hpk]) hiv hlk'
    (by rw [lookupByBytes_encode]; exact hlk')

/-- C1 witness: the round trip at the unit-test ring, a zero IV and the
plaintext "Hi". -/
theorem c1_round_trip_witness :
    decodeEnvelope stV1 (encodeEnvelope stV1 ivZ pW) = .ok pW :=
  c1_round_trip cfgV1 stV1 pW ivZ (encodeEnvelope stV1 ivZ pW)
    (by decide) (by decide) (by decide) (by decide)

/-- C1 counterexample: a ring whose only (primary) identifier is 256 bytes
of UTF-8 is validly constructed, its one-byte plaintext passes validation
and is framed, yet decoding the produced envelope fails (the length byte
holds 256 mod 256 = 0, so the decoder parses an empty kid and finds no
key), so the round trip does not return the plaintext. -/
theorem c1_round_trip_counterexample :
    mkStore cfg256 = .ok st256 ∧
    putBody st256 ivZ [42] = .ok (encodeEnvelope st256 ivZ [42]) ∧
    decodeEnvelope st256 (encodeEnvelope st256 ivZ [42])
      = .error (.decryptionError []) := by
  decide

/-- C5: a structurally well-formed envelope whose embedded kid names an
identifier absent from the key ring decodes to a DecryptionError that
carries that identifier — a returned error, not a crash, and no plaintext. -/
theorem c5_unknown_kid (st : Store) (env : Bytes)
    (_hwf : 1 + kidLenOf env + 16 + 16 ≤ env.length)
    (hlk : lookupByBytes st.keys (kidOf env) = none) :
    decodeEnvelope st env = .error (.decryptionError (kidOf env)) := by
  simp only [decodeEnvelope, hlk]

/-- C5 witness: the unit test's `v2` envelope against the `v1`-only ring. -/
theorem c5_unknown_kid_witness :
    decodeEnvelope stV1 envV2 = .error (.decryptionError [118, 50]) := by
  have h := c5_unknown_kid stV1 envV2 (by decide) (by decide)
  exact h

/-- C7: with a well-formed path, `put` succeeds exactly when the plaintext
is neither empty nor larger than the configured limit; every failure it
then throws is a ValidationError; and an absent `maxFileSize` resolves to
the 100 MiB default. -/
theorem c7_size_validation (cfg : StoreCfg) (st : Store) (path b k : JStr)
    (data iv : Bytes) (hst : mkStore cfg = .ok st)
    (hpath : parsePath path = .ok (b, k)) :
    ((put st path data iv).isOk = true ↔
      ¬(data.length = 0 ∨ data.length > st.maxFileSize)) ∧
    (∀ e, put st path data iv = .error e → errName e = "ValidationError") ∧
    (cfg.maxFileSize = none → st.maxFileSize = 104857600) := by
  obtain ⟨_, _, hmax, _, _, _, _⟩ := mkStore_ok hst
  have hput : put st path data iv
      = match validateInput st data with
        | some e => .error e
        | none => .ok (b, k ++ encSuffix, encodeEnvelope st iv data) := by
    unfold put
    rw [hpath]
  refine ⟨?_, ?_, ?_⟩
  · rw [hput]
    unfold validateInput
    split_ifs with d1 d2
    · simp [Except.isOk, Except.toBool, d1]
    · simp [Except.isOk, Except.toBool, d1, d2]
    · simp [Except.isOk, Except.toBool, d1, d2]
  · intro e he
    rw [hput] at he
    unfold validateInput at he
    split_ifs at he <;> injection he with he <;> simp [← he, errName]
  · intro h
    rw [hmax, h]
    rfl

/-- C7 witness: with an explicit 3-byte limit, a 3-byte plaintext is
accepted and a 4-byte one is rejected. -/
theorem c7_size_validation_witness :
    (put stM3 pathBK [7, 7, 7] ivZ).isOk = true ∧
    (put stM3 pathBK [7, 7, 7, 7] ivZ).isOk = false := by
  constructor
  · exact ((c7_size_validation cfgM3 stM3 pathBK ['b'] ['k'] [7, 7, 7] ivZ
      (by decide) (by decide)).1).mpr (by decide)
  · have h := (c7_size_validation cfgM3 stM3 pathBK ['b'] ['k'] [7, 7, 7, 7] ivZ
      (by decide) (by decide)).1
    cases hok : (put stM3 pathBK [7, 7, 7, 7] ivZ).isOk with
    | false => rfl
    | true => exact absurd (h.mp hok) (by decide)

/-- C8: rotation continuity.  An envelope E1 encoded under ring A (only key
`v1`) still decodes under the extended ring B (keys `v1`, `v2`, primary
`v2`); a fresh envelope E2 encoded under B decodes under B; and E2 carries
kid `v2`. -/
theorem c8_rotation_continuity (v1 v2 h1 h2 : JStr) (mf : Option Nat)
    (stA stB : Store) (M iv1 iv2 E1 E2 : Bytes)
    (hA : mkStore ⟨[(v1, h1)], v1, mf⟩ = .ok stA)
    (hB : mkStore ⟨[(v1, h1), (v2, h2)], v2, mf⟩ = .ok stB)
    (hne : v1 ≠ v2)
    (hk1 : (utf8Encode v1).length ≤ 255)
    (hk2 : (utf8Encode v2).length ≤ 255)
    (hiv1 : iv1.length = 16) (hiv2 : iv2.length = 16)
    (hE1 : putBody stA iv1 M = .ok E1)
    (hE2 : putBody stB iv2 M = .ok E2) :
    decodeEnvelope stB E1 = .ok M ∧ decodeEnvelope stB E2 = .ok M ∧
    kidOf E2 = utf8Encode v2 := by
  obtain ⟨hkA, hpA, _, _, skA, hlkA, _⟩ := mkStore_ok hA
  obtain ⟨hkB, hpB, _, _, skB, hlkB, _⟩ := mkStore_ok hB
  obtain ⟨hE1', _, _⟩ := putBody_ok hE1
  obtain ⟨hE2', _, _⟩ := putBody_ok hE2
  subst hE1'
  subst hE2'
  have hkA' : stA.keys = [(v1, hexDecode h1)] := hkA
  have hpA' : stA.primaryKey = v1 := hpA
  have hkB' : stB.keys = [(v1, hexDecode h1), (v2, hexDecode h2)] := hkB
  have hpB' : stB.primaryKey = v2 := hpB
  have hv2ne : (v2 == v1) = false := by
    simp only [beq_eq_false_iff_ne, ne_eq]
    exact fun hx => hne hx.symm
  have hKA : stA.keys.lookup stA.primaryKey = some (hexDecode h1) := by
    rw [hkA', hpA']
    simp [List.lookup]
  have hKB2 : stB.keys.lookup stB.primaryKey = some (hexDecode h2) := by
    rw [hkB', hpB']
    simp [List.lookup, hv2ne]
  have hKB1 : lookupByBytes stB.keys (utf8Encode stA.primaryKey)
      = some (hexDecode h1) := by
    rw [hpA', lookupByBytes_encode, hkB']
    simp [List.lookup]
  refine ⟨decode_encode_cross (by rwa [hpA']) hiv1 hKA hKB1, ?_, ?_⟩
  · exact decode_encode_cross (by rwa [hpB']) hiv2 hKB2
      (by rw [hpB', lookupByBytes_encode, hkB']; simp [List.lookup, hv2ne])
  · rw [kidOf_encode stB iv2 M (by rwa [hpB']), hpB']

/-- C8 witness: concrete rings `A = ⟨v1⟩` (the unit-test store) and
`B = ⟨v1, v2⟩` with distinct keys, zero IVs and the plaintext "Hi": the old
envelope still decodes under B. -/
theorem c8_rotation_continuity_witness :
    decodeEnvelope stBW (encodeEnvelope stV1 ivZ pW) = .ok pW := by
  have h := c8_rotation_continuity ['v', '1'] ['v', '2']
    (List.replicate 64 'a') (List.replicate 64 'b') none stV1 stBW pW ivZ ivZ
    (encodeEnvelope stV1 ivZ pW) (encodeEnvelope stBW ivZ pW)
    (by decide) (by decide) (by decide) (by decide) (by decide)
    (by decide) (by decide) (by decide) (by decide)
  exact h.1

/-- C2 (code-bug exhibit): flipping a bit in the tag region (byte 19) or
the ciphertext region (byte 35) of an honestly produced envelope makes
decoding fail — but with the catch-all `S3Error` wrapper (the cipher's
authentication throw is not a `DecryptionError` instance, so `get`'s catch
block wraps it), contradicting `get`'s documented `DecryptionError` and the
spec.  The final conjunct checks every single-bit flip across the whole
tag-plus-ciphertext region (bytes 19–36): none ever yields plaintext. -/
theorem c2_tamper_s3error :
    putBody stV1 ivZ pW = .ok (encodeEnvelope stV1 ivZ pW) ∧
    decodeEnvelope stV1 (flipBit (encodeEnvelope stV1 ivZ pW) 19 0)
      = .error (.s3Error cryptoFailMsg) ∧
    decodeEnvelope stV1 (flipBit (encodeEnvelope stV1 ivZ pW) 35 0)
      = .error (.s3Error cryptoFailMsg) ∧
    errName (.s3Error cryptoFailMsg) = "S3Error" ∧
    ((List.range 18).all fun i => (List.range 8).all fun b =>
      !(decodeEnvelope stV1 (flipBit (encodeEnvelope stV1 ivZ pW) (19 + i) b)).isOk)
      = true := by
  decide

/-- C3 counterexample: `decode` performs no length validation, so the
claim's own 5-byte probe does not produce a ValidationError — `[0,1,2,3,4]`
parses an empty kid, fails the key lookup and throws DecryptionError, while
`[2,118,49,9,9]` parses kid `v1`, reaches the cipher with truncated slices
and is wrapped as S3Error — and a short envelope need not fail at all: the
31-byte `shortOkEnv` (below its kid's 35-byte minimum) carries a valid
12-byte truncated tag over an empty ciphertext, which Node's
`setAuthTag`-without-`authTagLength` accepts, so it decodes successfully to
the empty plaintext. -/
theorem c3_short_envelope_counterexample :
    decodeEnvelope stV1 [0, 1, 2, 3, 4] = .error (.decryptionError []) ∧
    decodeEnvelope stV1 [2, 118, 49, 9, 9] = .error (.s3Error cryptoFailMsg) ∧
    errName (.decryptionError []) = "DecryptionError" ∧
    errName (.s3Error cryptoFailMsg) = "S3Error" ∧
    shortOkEnv.length = 31 ∧
    1 + kidLenOf shortOkEnv + 16 + 16 = 35 ∧
    decodeEnvelope stV1 shortOkEnv = .ok [] := by
  decide

/-- C3 (amended): decoding a byte sequence shorter than the
`1 + kidLength + 16 + 16` minimum is never rejected with ValidationError
(no length validation exists) and never faults out of bounds: it fails with
DecryptionError (kid not found) or a wrapped S3Error (the cipher rejects
the truncated slices), or — because Node accepts truncated 4/8/12–15-byte
auth tags — may even decode successfully (the empty `errNameOf` case). -/
theorem c3_short_envelope (st : Store) (env : Bytes)
    (_hshort : env.length < 1 + kidLenOf env + 16 + 16) :
    (errNameOf (decodeEnvelope st env) = "" ∨
      errNameOf (decodeEnvelope st env) = "DecryptionError" ∨
      errNameOf (decodeEnvelope st env) = "S3Error") ∧
    ¬errNameOf (decodeEnvelope st env) = "ValidationError" := by
  cases hlk : lookupByBytes st.keys (kidOf env) with
  | none =>
    simp [decodeEnvelope, hlk, errNameOf, errName]
  | some K =>
    cases hdec : decryptGCM K ((env.drop (1 + kidLenOf env)).take 16)
        ((env.drop (1 + kidLenOf env + 16)).take 16)
        (env.drop (1 + kidLenOf env + 16 + 16)) with
    | some pl => simp [decodeEnvelope, hlk, hdec, errNameOf]
    | none => simp [decodeEnvelope, hlk, hdec, errNameOf, errName]

/-- C3 witness: the amended statement at the 5-byte probe, whose decode is
a DecryptionError and in particular no ValidationError. -/
theorem c3_short_envelope_witness :
    ¬errNameOf (decodeEnvelope stV1 [0, 1, 2, 3, 4]) = "ValidationError" :=
  (c3_short_envelope stV1 [0, 1, 2, 3, 4] (by decide)).2

/-- C4 counterexample: construction of an empty mapping fails with
ValidationError (there is no ConfigurationError class to throw), and a ring
whose only — and primary — identifier is 256 UTF-8 bytes long is accepted,
although the claim requires rejecting identifiers longer than 255 bytes. -/
theorem c4_construction_counterexample :
    mkStore ⟨[], ['v', '1'], none⟩ = .error (.validationError msgNoKeys) ∧
    errName (.validationError msgNoKeys) = "ValidationError" ∧
    ¬errName (.validationError msgNoKeys) = "ConfigurationError" ∧
    (utf8Encode kid256).length = 256 ∧
    mkStore cfg256 = .ok st256 := by
  decide

/-- C4 (amended): construction succeeds exactly unless the mapping is
empty, the primary identifier is empty, absent, or mapped to an empty (thus
falsy) value, or some key fails the 64-hex-character shape (equivalently,
does not decode to exactly 32 bytes); every rejection is a ValidationError
(the spec's ConfigurationError does not exist in the code), and identifiers
themselves — emptiness or UTF-8 byte length — are never validated. -/
theorem c4_construction (cfg : StoreCfg) :
    ((mkStore cfg).isOk = true ↔
      ¬(cfg.keys = [] ∨ cfg.primaryKey = [] ∨
        cfg.keys.lookup cfg.primaryKey = none ∨
        cfg.keys.lookup cfg.primaryKey = some [] ∨
        (∃ e ∈ cfg.keys, isHex64 e.2 = false))) ∧
    (∀ e, mkStore cfg = .error e → errName e = "ValidationError") := by
  constructor
  · unfold mkStore
    split_ifs with h1 h2
    · simp only [Except.isOk, Except.toBool]
      constructor
      · intro hx
        exact absurd hx (by simp)
      · intro hx
        exact absurd (Or.inl h1) hx
    · simp only [Except.isOk, Except.toBool]
      constructor
      · intro hx
        exact absurd hx (by simp)
      · intro hx
        rcases h2 with h2 | h2 | h2
        · exact absurd (Or.inr (Or.inl h2)) hx
        · exact absurd (Or.inr (Or.inr (Or.inl h2))) hx
        · exact absurd (Or.inr (Or.inr (Or.inr (Or.inl h2)))) hx
    · cases hf : cfg.keys.find? (fun e => !isHex64 e.2) with
      | some x =>
        simp only [Except.isOk, Except.toBool]
        constructor
        · intro hx
          exact absurd hx (by simp)
        · intro hx
          exfalso
          apply hx
          refine Or.inr (Or.inr (Or.inr (Or.inr ⟨x, List.mem_of_find?_eq_some hf, ?_⟩)))
          have := List.find?_some hf
          simp only [Bool.not_eq_true'] at this
          exact this
      | none =>
        simp only [Except.isOk, Except.toBool]
        constructor
        · intro _
          push_neg at h2 ⊢
          refine ⟨h1, h2.1, h2.2.1, h2.2.2, ?_⟩
          intro e he
          have := List.find?_eq_none.mp hf e he
          simp only [Bool.not_eq_true', Bool.not_eq_false] at this
          simp [this]
        · intro _
          trivial
  · intro e he
    unfold mkStore at he
    split_ifs at he
    · injection he with he
      simp [← he, errName]
    · injection he with he
      simp [← he, errName]
    · split at he
      · injection he with he
        simp [← he, errName]
      · exact Except.noConfusion he

/-- C4 witness: the amended characterization at the unit-test
configuration, which constructs successfully. -/
theorem c4_construction_witness : (mkStore cfgV1).isOk = true :=
  (c4_construction cfgV1).1.mpr (by decide)

/-- C6 (amended): an envelope produced for a ring whose primary identifier
fits the length byte is exactly `kidLength ++ kid ++ iv ++ tag ++
ciphertext`: its first byte equals the identifier's UTF-8 byte length, the
kid slice is that identifier, the next 16 bytes are the IV, then a 16-byte
tag, and a ciphertext exactly as long as the plaintext.  (In general the
first byte is the length modulo 256: see the counterexample.) -/
theorem c6_envelope_layout (cfg : StoreCfg) (st : Store) (iv p env : Bytes)
    (hst : mkStore cfg = .ok st)
    (hkl : (utf8Encode cfg.primaryKey).length ≤ 255)
    (hiv : iv.length = 16)
    (henv : putBody st iv p = .ok env) :
    env.headD 0 = (utf8Encode cfg.primaryKey).length ∧
    kidOf env = utf8Encode cfg.primaryKey ∧
    (env.drop (1 + (utf8Encode cfg.primaryKey).length)).take 16 = iv ∧
    ((env.drop (1 + (utf8Encode cfg.primaryKey).length + 16)).take 16).length = 16 ∧
    (env.drop (1 + (utf8Encode cfg.primaryKey).length + 16 + 16)).length = p.length ∧
    env.length = 1 + (utf8Encode cfg.primaryKey).length + 16 + 16 + p.length := by
  obtain ⟨hk, hpk, _, _, sk, hlk, _⟩ := mkStore_ok hst
  obtain ⟨henv', _, _⟩ := putBody_ok henv
  subst henv'
  rw [← hpk]
  have henc : encodeEnvelope st iv p
      = (utf8Encode st.primaryKey).length % 256 ::
        (utf8Encode st.primaryKey ++ iv ++
          tagF ((st.keys.lookup st.primaryKey).getD []) iv
            (xorStream ((st.keys.lookup st.primaryKey).getD []) iv 0 p) ++
          xorStream ((st.keys.lookup st.primaryKey).getD []) iv 0 p) := rfl
  obtain ⟨h1, h2, h3, h4, h5⟩ := env_slices (utf8Encode st.primaryKey) iv
    (tagF ((st.keys.lookup st.primaryKey).getD []) iv
      (xorStream ((st.keys.lookup st.primaryKey).getD []) iv 0 p))
    (xorStream ((st.keys.lookup st.primaryKey).getD []) iv 0 p)
    (by rwa [hpk]) hiv (tagF_length ..)
  rw [henc]
  refine ⟨?_, h2, h3, ?_, ?_, ?_⟩
  · simpa [kidLenOf] using h1
  · rw [h4]
    exact tagF_length ..
  · rw [h5]
    exact xorStream_length ..
  · simp only [List.length_cons, List.length_append, tagF_length,
      xorStream_length, hiv]
    omega

/-- C6 witness: the first byte and kid slice of a concrete envelope at the
unit-test ring equal the primary identifier's UTF-8 length and bytes. -/
theorem c6_envelope_layout_witness :
    (encodeEnvelope stV1 ivZ pW).headD 0 = (utf8Encode cfgV1.primaryKey).length ∧
    kidOf (encodeEnvelope stV1 ivZ pW) = utf8Encode cfgV1.primaryKey := by
  have h := c6_envelope_layout cfgV1 stV1 ivZ pW (encodeEnvelope stV1 ivZ pW)
    (by decide) (by decide) (by decide) (by decide)
  exact ⟨h.1, h.2.1⟩

/-- C6 counterexample: for the validly constructed 256-byte-identifier
ring, the produced envelope's first byte is 0 (the length modulo 256), not
the identifier's UTF-8 byte length 256. -/
theorem c6_envelope_layout_counterexample :
    mkStore cfg256 = .ok st256 ∧
    putBody st256 ivZ [42] = .ok (encodeEnvelope st256 ivZ [42]) ∧
    (encodeEnvelope st256 ivZ [42]).headD 999 = 0 ∧
    (utf8Encode st256.primaryKey).length = 256 := by
  decide

/-- C9: `put` stores under the parsed key with the literal `.enc` suffix
appended, and every key `list` returns is a listed object key ending in
`.enc` with that suffix stripped — so, over contents written by `put`, each
listed key is one `put` stored. -/
theorem c9_enc_suffix :
    (∀ (st : Store) (path : JStr) (data iv : Bytes) (b okey : JStr) (env : Bytes),
      put st path data iv = .ok (b, okey, env) →
      ∃ k, parsePath path = .ok (b, k) ∧ okey = k ++ encSuffix) ∧
    (∀ (st : Store) (path : JStr) (contents : List JStr) (off lim : Nat)
        (res : List JStr) (s : JStr),
      list st path contents off lim = .ok res → s ∈ res →
      s ++ encSuffix ∈ contents) := by
  constructor
  · intro st path data iv b okey env h
    unfold put at h
    cases hpp : parsePath path with
    | error e =>
      rw [hpp] at h
      exact Except.noConfusion h
    | ok v =>
      obtain ⟨b0, k0⟩ := v
      rw [hpp] at h
      cases hv : validateInput st data with
      | some e =>
        rw [hv] at h
        exact Except.noConfusion h
      | none =>
        rw [hv] at h
        injection h with h
        simp only [Prod.mk.injEq] at h
        obtain ⟨hb, hok, -⟩ := h
        subst hb
        exact ⟨k0, rfl, hok.symm⟩
  · intro st path contents off lim res s h hs
    exact list_mem_of h hs

/-- C9 witness: a listing containing `x.enc` yields the key `x`, whose
suffixed form is the listed object key. -/
theorem c9_enc_suffix_witness :
    ['x'] ++ encSuffix ∈ [['x', '.', 'e', 'n', 'c']] :=
  c9_enc_suffix.2 stV1 pathBK [['x', '.', 'e', 'n', 'c']] 0 1000 [['x']] ['x']
    (by decide) (by decide)

/-- C10: every path that is empty, has no `/`, or has an empty bucket or
key part makes `parsePath` — and with it `put`, `get`, `delete` and `list`,
for every plaintext, IV, fetched body, listing contents, offset and limit —
fail with ValidationError before any cipher or storage step; every other
path splits into the text before the first `/` as bucket and everything
after it as key. -/
theorem c10_path_validation (path : JStr) :
    (badPath path →
      isValidationFailure (parsePath path) = true ∧
      ∀ (st : Store) (data iv body : Bytes) (contents : List JStr) (off lim : Nat),
        isValidationFailure (put st path data iv) = true ∧
        isValidationFailure (get st path body) = true ∧
        isValidationFailure (delete st path) = true ∧
        isValidationFailure (list st path contents off lim) = true) ∧
    (¬badPath path →
      parsePath path = .ok (path.takeWhile (fun c => !(c == '/')),
        (path.dropWhile (fun c => !(c == '/'))).drop 1)) := by
  constructor
  · intro h
    have hvf := parsePath_bad h
    refine ⟨hvf, ?_⟩
    intro st data iv body contents off lim
    cases hpp : parsePath path with
    | ok v =>
      rw [hpp] at hvf
      exact absurd hvf (by simp [isValidationFailure])
    | error e =>
      obtain ⟨o1, o2, o3, o4⟩ :=
        ops_fail st data iv body contents off lim hpp
      rw [hpp] at hvf
      exact ⟨by rw [o1]; exact (isVF_error _ _ e).trans hvf,
        by rw [o2]; exact (isVF_error _ _ e).trans hvf,
        by rw [o3]; exact (isVF_error _ _ e).trans hvf,
        by rw [o4]; exact (isVF_error _ _ e).trans hvf⟩
  · exact parsePath_good

/-- C10 witness: the valid path `b/k` parses into bucket `b` and key `k`. -/
theorem c10_path_validation_witness : parsePath pathBK = .ok (['b'], ['k']) := by
  have h := (c10_path_validation pathBK).2 (by unfold badPath; decide)
  exact h

end SecureS3
